import Mathlib

/-!
Shallow embedding of `custom_components/remote_homeassistant/config_flow.py`
(Remote Home-Assistant integration): the connection-setup config flow and the
four-step options wizard, together with proofs of the specified properties.

Modelling conventions:
* Python strings are Lean `String`s; Python `None`-able string fields are
  `Option String` (an `f`-string renders `None` as the string `"None"`).
* The `above` / `below` filter fields are floats in Python; only their
  rendered text takes part in any behaviour modelled here, so they are
  embedded as the strings the `f`-string interpolation produces.
* Python dictionaries with heterogeneous values (the options draft and the
  persisted entry options) are association lists over a `Value` sum type,
  with insertion-order-preserving assignment as in CPython.
* Exceptions are modelled by `Option` results (`none` = the step raises).
* Python sets of strings are modelled as duplicate-free lists; only
  membership and multiplicity are relied on, never iteration order.
-/

namespace RemoteHA

/-- A threshold filter record, as built in `async_step_general_filters`:
`{conf: user_input.get(conf) for conf in FILTER_OPTIONS}`.  Each field comes
from `dict.get` and may therefore be `None`. -/
structure Filter where
  entityId : Option String
  unit : Option String
  above : Option String
  below : Option String
deriving DecidableEq, Repr

/-- Renders a possibly-`None` value inside an `f`-string, as Python does. -/
def pyStrOpt : Option String → String
  | some s => s
  | none => "None"

/-- The decimal digit character for `n < 10`, i.e. `chr(48 + n)`. -/
def digitChar10 (n : Nat) : Char := Char.ofNat (48 + n)

/-- Fuel-indexed decimal rendering of a natural number (most significant digit
first), matching Python `str` on non-negative integers.  The fuel makes the
definition structurally recursive so that it evaluates by kernel reduction. -/
def natDigitsAux : Nat → Nat → List Char
  | 0, _ => []
  | fuel + 1, n =>
    if n < 10 then [digitChar10 n]
    else natDigitsAux fuel (n / 10) ++ [digitChar10 (n % 10)]

/-- Decimal digit list of `n`; fuel `n + 1` always suffices. -/
def natDigits (n : Nat) : List Char := natDigitsAux (n + 1) n

/-- Python `str` of a non-negative integer. -/
def natStr (n : Nat) : String := String.mk (natDigits n)

/-- The numeric value of a decimal digit character, `none` otherwise. -/
def digitVal (c : Char) : Option Nat :=
  if c.isDigit then some (c.toNat - 48) else none

/-- Accumulating core of decimal parsing: consumes digits left to right,
failing on the first non-digit character. -/
def digitsToNatCore : List Char → Nat → Option Nat
  | [], acc => some acc
  | c :: cs, acc =>
    match digitVal c with
    | some d => digitsToNatCore cs (acc * 10 + d)
    | none => none

/-- Parses a non-empty all-digit character list as a natural number;
`none` on the empty list or any non-digit. -/
def digitsToNat? (l : List Char) : Option Nat :=
  if l.isEmpty then none else digitsToNatCore l 0

/-- Python `int(s)` on the inputs arising here: an optional sign followed by
decimal digits.  (The whitespace and underscore forms `int` also accepts never
occur in this module and are not modelled.) -/
def pyInt (s : String) : Option Int :=
  match s.data with
  | [] => none
  | c :: rest =>
    if c = '-' then (digitsToNat? rest).map (fun n : Nat => -(n : Int))
    else if c = '+' then (digitsToNat? rest).map (fun n : Nat => (n : Int))
    else (digitsToNat? (c :: rest)).map (fun n : Nat => (n : Int))

/-- Python `s.split(".")[0]`: the prefix of `s` before its first `'.'`
(all of `s` when there is none). -/
def splitDotHead (s : String) : String :=
  String.mk (s.data.takeWhile (fun c => c != '.'))

/-- `_filter_str(index, filter)`: the display string
`f"{index+1}. {entity_id}, unit: {unit}, above: {above}, below: {below}"`. -/
def filter_str (index : Nat) (f : Filter) : String :=
  natStr (index + 1) ++ ". " ++ pyStrOpt f.entityId ++ ", unit: " ++
    pyStrOpt f.unit ++ ", above: " ++ pyStrOpt f.above ++ ", below: " ++
    pyStrOpt f.below

/-- Python list indexing `l[i]`: negative indices count from the end,
out-of-range raises (`none`). -/
def pyListGet {α : Type} (l : List α) (i : Int) : Option α :=
  let j : Int := if i < 0 then i + l.length else i
  if j < 0 then none else l.get? j.toNat

/-- The index computed for one selected display string in the finalize path of
`async_step_general_filters`: `int(filter.split(".")[0]) - 1`. -/
def selIndex (s : String) : Option Int :=
  (pyInt (splitDotHead s)).map (fun n => n - 1)

/-- The finalize path of `async_step_general_filters`: extract the leading
index from every selected display string, then index the in-memory filter
list; `none` models an uncaught `ValueError`/`IndexError`. -/
def finalizeSelected (filters : List Filter) (sel : List String) :
    Option (List Filter) :=
  match sel.mapM selIndex with
  | none => none
  | some idxs => idxs.mapM (fun i => pyListGet filters i)

-- Digit-level lemmas ---------------------------------------------------------

theorem digitVal_digitChar10 : ∀ n, n < 10 → digitVal (digitChar10 n) = some n := by
  decide

theorem digitChar10_isDigit : ∀ n, n < 10 → (digitChar10 n).isDigit = true := by
  decide

theorem natDigitsAux_ne_nil (fuel n : Nat) (h : n < fuel) :
    natDigitsAux fuel n ≠ [] := by
  cases fuel with
  | zero => omega
  | succ m =>
    simp only [natDigitsAux]
    split
    · simp
    · simp

theorem natDigitsAux_isDigit (fuel : Nat) :
    ∀ n, n < fuel → ∀ c ∈ natDigitsAux fuel n, c.isDigit = true := by
  induction fuel with
  | zero => intro n h; omega
  | succ m ih =>
    intro n _ c hc
    simp only [natDigitsAux] at hc
    by_cases h10 : n < 10
    · simp [h10] at hc
      subst hc
      exact digitChar10_isDigit n h10
    · simp [h10] at hc
      rcases hc with hc | hc
      · exact ih (n / 10) (by omega) c hc
      · subst hc
        exact digitChar10_isDigit (n % 10) (by omega)

theorem digitsToNatCore_append (l₁ l₂ : List Char) (acc : Nat) :
    digitsToNatCore (l₁ ++ l₂) acc =
      (digitsToNatCore l₁ acc).bind (digitsToNatCore l₂) := by
  induction l₁ generalizing acc with
  | nil => simp [digitsToNatCore]
  | cons c cs ih =>
    simp only [List.cons_append, digitsToNatCore]
    cases digitVal c with
    | none => simp
    | some d => simp [ih]

theorem digitsToNatCore_natDigitsAux (fuel : Nat) :
    ∀ n acc, n < fuel →
      digitsToNatCore (natDigitsAux fuel n) acc =
        some (acc * 10 ^ (natDigitsAux fuel n).length + n) := by
  induction fuel with
  | zero => intro n acc h; omega
  | succ m ih =>
    intro n acc hn
    by_cases h10 : n < 10
    · simp only [natDigitsAux, if_pos h10, digitsToNatCore,
        digitVal_digitChar10 n h10]
      simp [digitsToNatCore]
    · have hm : n / 10 < m := by omega
      simp only [natDigitsAux, if_neg h10]
      rw [digitsToNatCore_append, ih (n / 10) acc hm]
      simp only [Option.bind, digitsToNatCore,
        digitVal_digitChar10 (n % 10) (by omega)]
      simp only [List.length_append, List.length_singleton]
      congr 1
      have hd : 10 * (n / 10) + n % 10 = n := Nat.div_add_mod n 10
      calc (acc * 10 ^ (natDigitsAux m (n / 10)).length + n / 10) * 10 + n % 10
          = acc * (10 ^ (natDigitsAux m (n / 10)).length * 10) +
              (10 * (n / 10) + n % 10) := by ring
        _ = acc * 10 ^ ((natDigitsAux m (n / 10)).length + 1) + n := by
              rw [hd, pow_succ]

theorem natDigits_ne_nil (n : Nat) : natDigits n ≠ [] :=
  natDigitsAux_ne_nil (n + 1) n (Nat.lt_succ_self n)

theorem natDigits_isDigit (n : Nat) : ∀ c ∈ natDigits n, c.isDigit = true :=
  natDigitsAux_isDigit (n + 1) n (Nat.lt_succ_self n)

theorem digitsToNat?_natDigits (n : Nat) : digitsToNat? (natDigits n) = some n := by
  have hne := natDigits_ne_nil n
  have hcore := digitsToNatCore_natDigitsAux (n + 1) n 0 (Nat.lt_succ_self n)
  rw [digitsToNat?, if_neg (by simp [List.isEmpty_iff, hne]), natDigits, hcore]
  simp

theorem isDigit_ne (c d : Char) (hd : d.isDigit = false) (h : c.isDigit = true) :
    c ≠ d := by
  intro he
  rw [he, hd] at h
  exact Bool.false_ne_true h

theorem takeWhile_append_dot (l₁ l₂ : List Char)
    (h : ∀ c ∈ l₁, (c != '.') = true) :
    (l₁ ++ '.' :: l₂).takeWhile (fun c => c != '.') = l₁ := by
  induction l₁ with
  | nil => simp
  | cons c cs ih =>
    have hc := h c (List.mem_cons_self c cs)
    simp only [List.cons_append, List.takeWhile_cons, hc, if_true]
    rw [ih (fun x hx => h x (List.mem_cons_of_mem c hx))]

theorem splitDotHead_filter_str (i : Nat) (f : Filter) :
    splitDotHead (filter_str i f) = natStr (i + 1) := by
  have hdig : ∀ c ∈ natDigits (i + 1), (c != '.') = true := by
    intro c hc
    have := natDigits_isDigit (i + 1) c hc
    simpa using isDigit_ne c '.' (by decide) this
  unfold splitDotHead filter_str natStr
  congr 1
  simp only [String.data_append, List.append_assoc, List.cons_append,
    List.nil_append]
  exact takeWhile_append_dot _ _ hdig

theorem pyInt_natStr (n : Nat) : pyInt (natStr n) = some (n : Int) := by
  unfold pyInt natStr
  cases h : natDigits n with
  | nil => exact absurd h (natDigits_ne_nil n)
  | cons c cs =>
    have hc : c.isDigit = true :=
      natDigits_isDigit n c (by rw [h]; exact List.mem_cons_self c cs)
    have hm : digitsToNat? (c :: cs) = some n := by
      rw [← h]; exact digitsToNat?_natDigits n
    simp only [String.mk]
    rw [if_neg (by simpa using isDigit_ne c '-' (by decide) hc),
      if_neg (by simpa using isDigit_ne c '+' (by decide) hc), hm]
    rfl

theorem selIndex_filter_str (i : Nat) (f : Filter) :
    selIndex (filter_str i f) = some (i : Int) := by
  unfold selIndex
  rw [splitDotHead_filter_str, pyInt_natStr]
  simp

-- Data model: option values, dictionaries, configuration keys ----------------

/-- A value stored in the options mapping: a string, a list of strings, or a
list of filter records (the three shapes this module ever stores). -/
inductive Value where
  | vs (s : String)
  | vls (l : List String)
  | vlf (l : List Filter)
deriving DecidableEq, Repr

/-- Python truthiness of a stored value: empty strings and empty lists are
falsy, everything else is truthy. -/
def Value.truthy : Value → Bool
  | .vs s => !(s = "")
  | .vls l => !l.isEmpty
  | .vlf l => !l.isEmpty

/-- The list of strings held by a stored value (the shape a persisted
subscribed-events value always has). -/
def Value.asStrList : Value → List String
  | .vls l => l
  | _ => []

/-- A Python `dict` with string keys, as an insertion-ordered association
list. -/
def Dict : Type := List (String × Value)

instance : DecidableEq Dict := inferInstanceAs (DecidableEq (List (String × Value)))

instance : Repr Dict := inferInstanceAs (Repr (List (String × Value)))

/-- `d.get(k)` / `d.get(k, default)` presence part: the first binding of `k`. -/
def Dict.get? : Dict → String → Option Value
  | [], _ => none
  | (k', v) :: rest, k => if k' = k then some v else Dict.get? rest k

/-- `d[k] = v`: overwrite the existing binding in place, else append
(CPython preserves insertion order). -/
def Dict.set : Dict → String → Value → Dict
  | [], k, v => [(k, v)]
  | (k', v') :: rest, k, v =>
    if k' = k then (k, v) :: rest else (k', v') :: Dict.set rest k v

/-- `d.update(u)`: assign every binding of `u` into `d`, in order. -/
def Dict.update (d u : Dict) : Dict :=
  u.foldl (fun acc p => acc.set p.1 p.2) d

/-!
Configuration keys.  The defining modules (`homeassistant.const` and this
integration's `const.py`) are outside the embedded sources; the keys are
modelled from the spec's data model as the distinct option names it lists,
with their well-known upstream string values.
-/

/-- Modelled from the spec: option key for the threshold filter list
(`CONF_FILTER` from `const.py`, which is not among the embedded sources). -/
def CONF_FILTER : String := "filter"

/-- Modelled from the spec: option key for subscribed event names
(`CONF_SUBSCRIBE_EVENTS` from `const.py`). -/
def CONF_SUBSCRIBE_EVENTS : String := "subscribe_events"

/-- Modelled from the spec: option key for the entity prefix
(`CONF_ENTITY_PREFIX` from `const.py`). -/
def CONF_ENTITY_PREFIX : String := "entity_prefix"

/-- Modelled from the spec: option key for included domains. -/
def CONF_INCLUDE_DOMAINS : String := "include_domains"

/-- Modelled from the spec: option key for included entities. -/
def CONF_INCLUDE_ENTITIES : String := "include_entities"

/-- Modelled from the spec: option key for excluded domains. -/
def CONF_EXCLUDE_DOMAINS : String := "exclude_domains"

/-- Modelled from the spec: option key for excluded entities. -/
def CONF_EXCLUDE_ENTITIES : String := "exclude_entities"

/-- Modelled from the spec: field key for an entity id
(`CONF_ENTITY_ID` from `homeassistant.const`). -/
def CONF_ENTITY_ID : String := "entity_id"

/-- Modelled from the spec: field key for a unit of measurement. -/
def CONF_UNIT_OF_MEASUREMENT : String := "unit_of_measurement"

/-- Modelled from the spec: field key for the lower threshold. -/
def CONF_ABOVE : String := "above"

/-- Modelled from the spec: field key for the upper threshold. -/
def CONF_BELOW : String := "below"

/-- The `add_new_event` sentinel field key of the events step. -/
def ADD_NEW_EVENT : String := "add_new_event"

/-- `options.get(CONF_FILTER, [])` on the persisted options: the stored filter
list, or `[]` when the key is absent. -/
def getFilterList (d : Dict) : List Filter :=
  match d.get? CONF_FILTER with
  | some (.vlf l) => l
  | _ => []

/-- `options.get(k, [])` for a string-list-valued key. -/
def getStrList (d : Dict) (k : String) : List String :=
  match d.get? k with
  | some (.vls l) => l
  | _ => []

-- Python set model ------------------------------------------------------------

/-- `s.add(e)` on a Python set modelled as a duplicate-free list: a no-op when
the element is present, otherwise the element is adjoined. -/
def setAdd (l : List String) (e : String) : List String :=
  if e ∈ l then l else l ++ [e]

/-- `set(xs)`: deduplicate a list into the set model. -/
def listToSet (xs : List String) : List String :=
  xs.foldl setAdd []

/-- Python `sorted` of a collection of strings (order is irrelevant to every
property proved here; only the multiset of elements is used). -/
def pySorted (l : List String) : List String :=
  l.insertionSort (· < ·)

-- Options flow state and steps ------------------------------------------------

/-- One field of a rendered form: its key, its multi-select choices (empty for
free-text fields) and its default (`none` models `vol.UNDEFINED`). -/
structure FormField where
  name : String
  choices : List String
  defaultVal : Option Value
deriving DecidableEq, Repr

/-- The result handed back to the flow manager by a step. -/
inductive StepOutcome where
  | showForm (stepId : String) (fields : List FormField)
  | createEntry (title : String) (data : Dict)
deriving DecidableEq, Repr

/-- The state of one `OptionsFlowHandler` run together with its read-only
collaborators: `entryOptions` is `config_entry.options` (the persisted
mapping), `remoteEntities` the remote connection's entity names, and
`filters` / `events` / `options` the handler's mutable instance fields.
`filtersAlias` records a fact of the Python object graph: after the first
entry of the general-filters step, `self.filters` is the very list object
stored under the filter key of `config_entry.options` (when that key is
present), so appending to it mutates the persisted mapping in place. -/
structure FlowState where
  entryOptions : Dict
  remoteEntities : List String
  filters : List Filter
  events : List String
  options : Dict
  filtersAlias : Bool
deriving DecidableEq, Repr

/-- `_default(conf)`: `self.config_entry.options.get(conf) or vol.UNDEFINED`;
a stored falsy value collapses to the no-default sentinel (`none`). -/
def _default (st : FlowState) (conf : String) : Option Value :=
  match st.entryOptions.get? conf with
  | some v => if v.truthy then some v else none
  | none => none

/-- `_domains_and_entities()`: the union of the remote's entity names with the
persisted include/exclude entities, sorted; domains are the sorted distinct
prefixes before the first dot. -/
def _domains_and_entities (st : FlowState) : List String × List String :=
  let include_entities := listToSet (getStrList st.entryOptions CONF_INCLUDE_ENTITIES)
  let exclude_entities := listToSet (getStrList st.entryOptions CONF_EXCLUDE_ENTITIES)
  let entities := pySorted
    (listToSet (st.remoteEntities ++ include_entities ++ exclude_entities))
  let domains := pySorted (listToSet (entities.map splitDotHead))
  (domains, entities)

/-- The user submission of the events step; `none` fields model absence from
the submitted mapping. -/
structure EventsInput where
  subscribeEvents : Option (List String)
  addNewEvent : Option String
deriving DecidableEq, Repr

/-- The user submission of the general-filters step. -/
structure GFInput where
  filter : Option (List String)
  entityId : Option String
  unit : Option String
  above : Option String
  below : Option String
deriving DecidableEq, Repr

/-- `{conf: user_input.get(conf) for conf in FILTER_OPTIONS}`. -/
def newFilterOf (u : GFInput) : Filter :=
  ⟨u.entityId, u.unit, u.above, u.below⟩

/-- `[_filter_str(i, f) for i, f in enumerate(filters)]`. -/
def filterStrings (filters : List Filter) : List String :=
  filters.enum.map (fun p => filter_str p.1 p.2)

/-- The schema of the events form: a multi-select over the event set plus the
free-text `add_new_event` sentinel field. -/
def eventsFields (events : List String) (sel : Option Value) : List FormField :=
  [⟨CONF_SUBSCRIBE_EVENTS, events, sel⟩, ⟨ADD_NEW_EVENT, [], none⟩]

/-- The schema of the general-filters form: a multi-select over the display
strings plus the four free-text filter fields. -/
def gfFields (filters : List Filter) (sel : List String) : List FormField :=
  [⟨CONF_FILTER, filterStrings filters, some (.vls sel)⟩,
   ⟨CONF_ENTITY_ID, [], none⟩,
   ⟨CONF_UNIT_OF_MEASUREMENT, [], none⟩,
   ⟨CONF_ABOVE, [], none⟩,
   ⟨CONF_BELOW, [], none⟩]

/-- Whether the persisted options hold a filter list (then the first entry of
the general-filters step makes `self.filters` alias it). -/
def hasFilterList (d : Dict) : Bool :=
  match d.get? CONF_FILTER with
  | some (.vlf _) => true
  | _ => false

/-- `async_step_events`: finalize (store the selected subscribed events into
the draft and create the entry) when the sentinel field is absent; otherwise
add the new event name to the set and the selection and re-render; on first
entry initialise the event set from the persisted options. -/
def async_step_events (st : FlowState) (input : Option EventsInput) :
    StepOutcome × FlowState :=
  match input with
  | some u =>
    match u.addNewEvent with
    | none =>
      let opts := st.options.set CONF_SUBSCRIBE_EVENTS (.vls (u.subscribeEvents.getD []))
      let st' := {st with options := opts}
      (.createEntry "" st'.options, st')
    | some ev =>
      let sel := (u.subscribeEvents.getD []) ++ [ev]
      let st' := {st with events := setAdd st.events ev}
      (.showForm "events" (eventsFields st'.events (some (.vls sel))), st')
  | none =>
    let stored := match st.entryOptions.get? CONF_SUBSCRIBE_EVENTS with
      | some v => if v.truthy then v.asStrList else []
      | none => []
    let st' := {st with events := listToSet stored}
    (.showForm "events" (eventsFields st'.events (_default st' CONF_SUBSCRIBE_EVENTS)),
      st')

/-- `async_step_general_filters`: finalize (reverse-map the selected display
strings through their leading indices and store the result in the draft, then
move on to the events step) when the entity-id field is absent; otherwise
append the new filter record and its display string and re-render; on first
entry initialise the filter list from the persisted options (in Python this
makes `self.filters` alias the stored list, recorded in `filtersAlias`, so a
later append mutates the persisted mapping in place). -/
def async_step_general_filters (st : FlowState) (input : Option GFInput) :
    Option (StepOutcome × FlowState) :=
  match input with
  | some u =>
    match u.entityId with
    | none =>
      match finalizeSelected st.filters (u.filter.getD []) with
      | none => none
      | some newList =>
        let st' := {st with options := st.options.set CONF_FILTER (.vlf newList)}
        some (async_step_events st' none)
    | some _ =>
      let nf := newFilterOf u
      let newFilters := st.filters ++ [nf]
      let sel := (u.filter.getD []) ++ [filter_str st.filters.length nf]
      let st' := {st with
        filters := newFilters,
        entryOptions := if st.filtersAlias then
            st.entryOptions.set CONF_FILTER (.vlf newFilters)
          else st.entryOptions}
      some (.showForm "general_filters" (gfFields st'.filters sel), st')
  | none =>
    let st' := {st with
      filters := getFilterList st.entryOptions,
      filtersAlias := hasFilterList st.entryOptions}
    some (.showForm "general_filters"
      (gfFields st'.filters (filterStrings st'.filters)), st')

/-- The schema of the domain/entity filters form: four multi-selects over the
domains/entities computed by `_domains_and_entities`, with `_default`
defaults. -/
def defFields (st : FlowState) : List FormField :=
  let de := _domains_and_entities st
  [⟨CONF_INCLUDE_DOMAINS, de.1, _default st CONF_INCLUDE_DOMAINS⟩,
   ⟨CONF_INCLUDE_ENTITIES, de.2, _default st CONF_INCLUDE_ENTITIES⟩,
   ⟨CONF_EXCLUDE_DOMAINS, de.1, _default st CONF_EXCLUDE_DOMAINS⟩,
   ⟨CONF_EXCLUDE_ENTITIES, de.2, _default st CONF_EXCLUDE_ENTITIES⟩]

/-- `async_step_domain_entity_filters`: merge a submission into the draft and
continue with the general-filters step, or render the four multi-selects. -/
def async_step_domain_entity_filters (st : FlowState) (input : Option Dict) :
    Option (StepOutcome × FlowState) :=
  match input with
  | some u =>
    let st' := {st with options := st.options.update u}
    async_step_general_filters st' none
  | none => some (.showForm "domain_entity_filters" (defFields st), st)

/-- `async_step_init`: seed the draft from a submission and continue with the
domain/entity filters step, or render the entity-prefix form (whose suggested
value is read straight from the persisted options, not via `_default`). -/
def async_step_init (st : FlowState) (input : Option Dict) :
    Option (StepOutcome × FlowState) :=
  match input with
  | some u =>
    let st' := {st with options := u}
    async_step_domain_entity_filters st' none
  | none =>
    some (.showForm "init"
      [⟨CONF_ENTITY_PREFIX, [], st.entryOptions.get? CONF_ENTITY_PREFIX⟩], st)

-- Connection setup flow -------------------------------------------------------

/-- Modelled from the spec: the failure kinds of the external discovery call.
`rest_api.py` (which defines `ApiProblem`, `CannotConnect` and `InvalidAuth`)
is outside the embedded sources; the spec lists three distinct failure kinds,
to which `config_flow.py` visibly adds `OSError` and arbitrary other
exceptions. -/
inductive DiscoveryExc where
  | apiProblem
  | cannotConnect
  | invalidAuth
  | osError
  | other
deriving DecidableEq, Repr

/-- The behaviour of one call to `async_get_discovery_info`: either the
discovery mapping (location name and uuid) or a raised exception. -/
inductive DiscoveryOutcome where
  | ok (locationName uuid : String)
  | raise (e : DiscoveryExc)
deriving DecidableEq, Repr

/-- The mapping returned by `validate_input` on success. -/
structure DiscoveryInfo where
  title : String
  uuid : String
deriving DecidableEq, Repr

/-- `validate_input`: forwards the discovery result, converting `OSError`
into `CannotConnect`; every other exception propagates. -/
def validate_input (d : DiscoveryOutcome) : Except DiscoveryExc DiscoveryInfo :=
  match d with
  | .ok name uuid => .ok ⟨name, uuid⟩
  | .raise .osError => .error .cannotConnect
  | .raise e => .error e

/-- The connection credentials collected by the user form. -/
structure ConnConfig where
  host : String
  port : Nat
  accessToken : String
  secure : Bool
  verifySsl : Bool
deriving DecidableEq, Repr

/-- The result of the `user` config-flow step. -/
inductive UserStepResult where
  | showForm (errors : List (String × String))
  | abort
  | createEntry (title uniqueId : String) (data : ConnConfig)
deriving DecidableEq, Repr

/-- The error code selected by the `except` clauses of `async_step_user` for
an exception escaping `validate_input`. -/
def errorCode : DiscoveryExc → String
  | .apiProblem => "api_problem"
  | .cannotConnect => "cannot_connect"
  | .invalidAuth => "invalid_auth"
  | .osError => "unknown"
  | .other => "unknown"

/-- `async_step_user`: validate the submitted credentials through the
discovery call; on failure re-show the form with the mapped error code under
the key named base; on success set the unique id to the reported uuid, abort
when it is already registered, and otherwise create the entry titled with the
remote's location name. -/
def async_step_user (registered : List String)
    (input : Option (ConnConfig × DiscoveryOutcome)) : UserStepResult :=
  match input with
  | none => .showForm []
  | some (conf, d) =>
    match validate_input d with
    | .error e => .showForm [("base", errorCode e)]
    | .ok info =>
      if info.uuid ∈ registered then .abort
      else .createEntry info.title info.uuid conf

-- Helper lemmas ---------------------------------------------------------------

theorem Dict.get?_set_self (d : Dict) (k : String) (v : Value) :
    (d.set k v).get? k = some v := by
  induction d with
  | nil => simp [Dict.set, Dict.get?]
  | cons p rest ih =>
    by_cases h : p.1 = k
    · simp [Dict.set, Dict.get?, h]
    · simp [Dict.set, Dict.get?, h, ih]

theorem pyListGet_ofNat (l : List Filter) (i : Nat) (f : Filter)
    (h : l.get? i = some f) : pyListGet l (i : Int) = some f := by
  unfold pyListGet
  have h0 : ¬((i : Int) < 0) := by omega
  have h' : l[i]? = some f := List.get?_eq_getElem? l i ▸ h
  simp [h0, h']

theorem finalizeSelected_nil (filters : List Filter) :
    finalizeSelected filters [] = some [] := rfl

theorem finalizeSelected_cons (filters : List Filter) (i : Nat) (f : Filter)
    (g : Filter) (rest : List String) (l : List Filter)
    (hget : filters.get? i = some g)
    (hrest : finalizeSelected filters rest = some l) :
    finalizeSelected filters (filter_str i f :: rest) = some (g :: l) := by
  unfold finalizeSelected at hrest ⊢
  cases hmi : rest.mapM selIndex with
  | none => rw [hmi] at hrest; simp at hrest
  | some idxs =>
    rw [hmi] at hrest
    rw [List.mapM_cons, selIndex_filter_str, hmi]
    simp only [Option.pure_def, Option.bind_eq_bind, Option.some_bind]
    rw [List.mapM_cons, pyListGet_ofNat filters i g hget]
    simp only [Option.pure_def, Option.bind_eq_bind, Option.some_bind] at hrest ⊢
    rw [hrest]
    simp

theorem finalizeSelected_some (filters : List Filter) (sel : List String)
    (h : ∀ s ∈ sel, ∃ i g, filters.get? i = some g ∧ s = filter_str i g) :
    ∃ l, finalizeSelected filters sel = some l := by
  induction sel with
  | nil => exact ⟨[], finalizeSelected_nil filters⟩
  | cons s rest ih =>
    obtain ⟨i, g, hget, hs⟩ := h s (List.mem_cons_self s rest)
    obtain ⟨l, hl⟩ := ih (fun x hx => h x (List.mem_cons_of_mem s hx))
    subst hs
    exact ⟨g :: l, finalizeSelected_cons filters i g g rest l hget hl⟩

theorem mem_setAdd (l : List String) (e x : String) :
    x ∈ setAdd l e ↔ x ∈ l ∨ x = e := by
  unfold setAdd
  split
  · next he =>
    refine ⟨Or.inl, ?_⟩
    rintro (hx | rfl)
    · exact hx
    · exact he
  · simp

theorem setAdd_nodup (l : List String) (e : String) (h : l.Nodup) :
    (setAdd l e).Nodup := by
  unfold setAdd
  split
  · exact h
  · next he =>
    exact h.append (List.nodup_singleton e)
      ((List.disjoint_singleton).mpr he)

theorem foldl_setAdd_nodup (xs : List String) :
    ∀ acc, acc.Nodup → (xs.foldl setAdd acc).Nodup := by
  induction xs with
  | nil => intro acc h; exact h
  | cons x rest ih =>
    intro acc h
    exact ih (setAdd acc x) (setAdd_nodup acc x h)

theorem listToSet_nodup (xs : List String) : (listToSet xs).Nodup :=
  foldl_setAdd_nodup xs [] List.nodup_nil

theorem mem_foldl_setAdd (xs : List String) :
    ∀ acc x, x ∈ xs.foldl setAdd acc ↔ x ∈ acc ∨ x ∈ xs := by
  induction xs with
  | nil => intro acc x; simp
  | cons y rest ih =>
    intro acc x
    rw [List.foldl_cons, ih (setAdd acc y) x, mem_setAdd]
    constructor
    · rintro ((hx | hxy) | hx)
      · exact Or.inl hx
      · exact Or.inr (by rw [hxy]; exact List.mem_cons_self y rest)
      · exact Or.inr (List.mem_cons_of_mem y hx)
    · rintro (hx | hx)
      · exact Or.inl (Or.inl hx)
      · rcases List.mem_cons.mp hx with rfl | hx
        · exact Or.inl (Or.inr rfl)
        · exact Or.inr hx

theorem mem_listToSet (xs : List String) (x : String) :
    x ∈ listToSet xs ↔ x ∈ xs := by
  rw [listToSet, mem_foldl_setAdd]
  simp

theorem mem_pySorted (l : List String) (x : String) :
    x ∈ pySorted l ↔ x ∈ l :=
  (List.perm_insertionSort (· < ·) l).mem_iff

-- Claim theorems --------------------------------------------------------------

/-- C9: display-index round trip — for every position `i` and every filter
record `f` (whatever its entity id, unit, above and below contents, dots and
digits included), parsing the text before the first dot of the display string
generated for position `i` and subtracting one yields exactly `i`. -/
theorem display_index_roundtrip (i : Nat) (f : Filter) :
    selIndex (filter_str i f) = some (i : Int) :=
  selIndex_filter_str i f

/-- C2: each failure kind of the connection setup step maps to its own and
only its own error code — connectivity failures (`CannotConnect`, and
`OSError`, which `validate_input` converts) to cannot_connect, API-level
rejection to api_problem, authentication failure to invalid_auth, any other
exception to unknown — and on every failure the same form is re-shown with
that error under the base key instead of an entry being created. -/
theorem user_step_error_mapping (registered : List String) (conf : ConnConfig) :
    async_step_user registered (some (conf, .raise .cannotConnect)) =
      .showForm [("base", "cannot_connect")] ∧
    async_step_user registered (some (conf, .raise .osError)) =
      .showForm [("base", "cannot_connect")] ∧
    async_step_user registered (some (conf, .raise .apiProblem)) =
      .showForm [("base", "api_problem")] ∧
    async_step_user registered (some (conf, .raise .invalidAuth)) =
      .showForm [("base", "invalid_auth")] ∧
    async_step_user registered (some (conf, .raise .other)) =
      .showForm [("base", "unknown")] :=
  ⟨rfl, rfl, rfl, rfl, rfl⟩

/-- C3: on a successful discovery the user step creates an entry whose unique
id is the remote's reported uuid and whose title is its location name, while
a second attempt reporting an already-registered uuid aborts instead. -/
theorem user_step_unique_id (registered : List String) (conf : ConnConfig)
    (name uuid : String) :
    (uuid ∉ registered →
      async_step_user registered (some (conf, .ok name uuid)) =
        .createEntry name uuid conf) ∧
    (uuid ∈ registered →
      async_step_user registered (some (conf, .ok name uuid)) = .abort) := by
  constructor <;> intro h <;> simp [async_step_user, validate_input, h]

/-- Witness for C3 at concrete inputs: uuid u2 unseen creates the entry,
uuid u2 already registered aborts. -/
theorem user_step_unique_id_witness :
    ("u2" ∉ ["u1"] ∧
      async_step_user ["u1"] (some (⟨"h", 8123, "t", true, true⟩, .ok "Home" "u2")) =
        .createEntry "Home" "u2" ⟨"h", 8123, "t", true, true⟩) ∧
    ("u2" ∈ ["u2"] ∧
      async_step_user ["u2"] (some (⟨"h", 8123, "t", true, true⟩, .ok "Home" "u2")) =
        .abort) :=
  ⟨⟨by decide,
    (user_step_unique_id ["u1"] ⟨"h", 8123, "t", true, true⟩ "Home" "u2").1 (by decide)⟩,
   ⟨by decide,
    (user_step_unique_id ["u2"] ⟨"h", 8123, "t", true, true⟩ "Home" "u2").2 (by decide)⟩⟩

/-- C4: submitting the general-filters step with the entity-id field present
re-renders the same step (no transition): the filter record built from the
four fields is appended to the in-memory filter list (length grows by exactly
one) and its display string is appended to the pre-selected choices. -/
theorem general_filters_add_rerenders (st : FlowState)
    (fl : Option (List String)) (e : String) (un ab be : Option String) :
    async_step_general_filters st (some ⟨fl, some e, un, ab, be⟩) =
      some (.showForm "general_filters"
        (gfFields (st.filters ++ [newFilterOf ⟨fl, some e, un, ab, be⟩])
          ((fl.getD []) ++
            [filter_str st.filters.length (newFilterOf ⟨fl, some e, un, ab, be⟩)])),
        {st with
          filters := st.filters ++ [newFilterOf ⟨fl, some e, un, ab, be⟩],
          entryOptions := if st.filtersAlias then
              st.entryOptions.set CONF_FILTER
                (.vlf (st.filters ++ [newFilterOf ⟨fl, some e, un, ab, be⟩]))
            else st.entryOptions}) ∧
    (st.filters ++ [newFilterOf ⟨fl, some e, un, ab, be⟩]).length =
      st.filters.length + 1 := by
  constructor
  · rfl
  · simp

/-- C1 (amended): in the finalize path each selected display string is
reverse-mapped via its leading index to the underlying filter record, and the
stored filter list lists the selected records in the order the display
strings appear in the submission — for filters `[A, B, C]` the submission
`["2. ...", "3. ..."]` stores `[B, C]` and the reversed submission stores
`[C, B]`. -/
theorem finalize_preserves_submission_order (st : FlowState) (A B C : Filter) :
    ((async_step_general_filters {st with filters := [A, B, C]}
        (some ⟨some [filter_str 1 B, filter_str 2 C], none, none, none, none⟩)).map
      (fun p => p.2.options.get? CONF_FILTER)) = some (some (.vlf [B, C])) ∧
    ((async_step_general_filters {st with filters := [A, B, C]}
        (some ⟨some [filter_str 2 C, filter_str 1 B], none, none, none, none⟩)).map
      (fun p => p.2.options.get? CONF_FILTER)) = some (some (.vlf [C, B])) := by
  have h1 : finalizeSelected [A, B, C] [filter_str 1 B, filter_str 2 C] =
      some [B, C] :=
    finalizeSelected_cons _ 1 B B _ _ rfl
      (finalizeSelected_cons _ 2 C C _ _ rfl (finalizeSelected_nil _))
  have h2 : finalizeSelected [A, B, C] [filter_str 2 C, filter_str 1 B] =
      some [C, B] :=
    finalizeSelected_cons _ 2 C C _ _ rfl
      (finalizeSelected_cons _ 1 B B _ _ rfl (finalizeSelected_nil _))
  constructor
  · simp only [async_step_general_filters, Option.getD_some, h1]
    simp [async_step_events, Dict.get?_set_self]
  · simp only [async_step_general_filters, Option.getD_some, h2]
    simp [async_step_events, Dict.get?_set_self]

/-- Counterexample to C1 as stated: for filters `[A, B, C]` and a finalize
submission selecting the display strings of `C` and `B` in that submission
order, the stored filter entry is `[C, B]`, not the original list order
`[B, C]`. -/
theorem finalize_list_order_counterexample :
    ((async_step_general_filters
        ⟨[], [], [⟨some "sensor.a", none, none, none⟩,
                  ⟨some "sensor.b", none, none, none⟩,
                  ⟨some "sensor.c", none, none, none⟩], [], [], false⟩
        (some ⟨some [filter_str 2 ⟨some "sensor.c", none, none, none⟩,
                     filter_str 1 ⟨some "sensor.b", none, none, none⟩],
               none, none, none, none⟩)).map
      (fun p => p.2.options.get? CONF_FILTER)) =
      some (some (.vlf [⟨some "sensor.c", none, none, none⟩,
                        ⟨some "sensor.b", none, none, none⟩])) ∧
    Value.vlf [(⟨some "sensor.c", none, none, none⟩ : Filter),
               ⟨some "sensor.b", none, none, none⟩] ≠
      Value.vlf [⟨some "sensor.b", none, none, none⟩,
                 ⟨some "sensor.c", none, none, none⟩] := by
  decide

/-- C10: whenever every string of the finalize submission is a display string
generated for some filter of the current list, the finalize path succeeds —
each leading-index parse returns an integer and each computed index is in
range, so no exception escapes. -/
theorem finalize_path_total (st : FlowState) (sel : List String)
    (h : ∀ s ∈ sel, ∃ i g, st.filters.get? i = some g ∧ s = filter_str i g) :
    (async_step_general_filters st (some ⟨some sel, none, none, none, none⟩)).isSome := by
  obtain ⟨l, hl⟩ := finalizeSelected_some st.filters sel h
  simp only [async_step_general_filters, Option.getD_some, hl]
  simp

/-- Witness for C10 at a concrete input: one filter, its display string
selected. -/
theorem finalize_path_total_witness :
    (∀ s ∈ [filter_str 0 (⟨some "sensor.a", none, none, none⟩ : Filter)],
        ∃ i g, ([(⟨some "sensor.a", none, none, none⟩ : Filter)] : List Filter).get? i =
          some g ∧ s = filter_str i g) ∧
    (async_step_general_filters
        ⟨[], [], [⟨some "sensor.a", none, none, none⟩], [], [], false⟩
        (some ⟨some [filter_str 0 ⟨some "sensor.a", none, none, none⟩],
               none, none, none, none⟩)).isSome := by
  have hp : ∀ s ∈ [filter_str 0 (⟨some "sensor.a", none, none, none⟩ : Filter)],
      ∃ i g, ([(⟨some "sensor.a", none, none, none⟩ : Filter)] : List Filter).get? i =
        some g ∧ s = filter_str i g := by
    intro s hs
    rcases List.mem_singleton.mp hs with rfl
    exact ⟨0, ⟨some "sensor.a", none, none, none⟩, rfl, rfl⟩
  exact ⟨hp,
    finalize_path_total ⟨[], [], [⟨some "sensor.a", none, none, none⟩], [], [], false⟩
      [filter_str 0 ⟨some "sensor.a", none, none, none⟩] hp⟩

/-- C8: the default-value helper returns the persisted value exactly when one
is stored and truthy, and the no-default sentinel (`none`, standing for
`vol.UNDEFINED`) when the key is absent or its stored value is falsy; in
particular a stored empty list collapses to the same sentinel as an absent
key. -/
theorem default_helper_truthiness (st : FlowState) (k : String) (v : Value) :
    (st.entryOptions.get? k = some v → v.truthy = true → _default st k = some v) ∧
    (st.entryOptions.get? k = some v → v.truthy = false → _default st k = none) ∧
    (st.entryOptions.get? k = none → _default st k = none) ∧
    (st.entryOptions.get? k = some (.vls []) → _default st k = none) := by
  refine ⟨fun h1 h2 => ?_, fun h1 h2 => ?_, fun h1 => ?_, fun h1 => ?_⟩
  · simp [_default, h1, h2]
  · simp [_default, h1, h2]
  · simp [_default, h1]
  · simp [_default, h1, Value.truthy]

/-- Witness for C8 at concrete inputs: a truthy stored string is returned, a
stored empty list and an absent key both give the sentinel. -/
theorem default_helper_truthiness_witness :
    ((Dict.get? [("k", Value.vs "x")] "k" = some (.vs "x") ∧
        Value.truthy (.vs "x") = true ∧
        _default ⟨[("k", .vs "x")], [], [], [], [], false⟩ "k" = some (.vs "x")) ∧
      (Dict.get? [("k", Value.vls [])] "k" = some (.vls []) ∧
        _default ⟨[("k", .vls [])], [], [], [], [], false⟩ "k" = none) ∧
      (Dict.get? [] "k" = none ∧
        _default ⟨[], [], [], [], [], false⟩ "k" = none)) :=
  ⟨⟨by decide, by decide,
    (default_helper_truthiness ⟨[("k", .vs "x")], [], [], [], [], false⟩ "k"
      (.vs "x")).1 (by decide) (by decide)⟩,
   ⟨by decide,
    (default_helper_truthiness ⟨[("k", .vls [])], [], [], [], [], false⟩ "k"
      (.vls [])).2.2.2 (by decide)⟩,
   ⟨by decide,
    (default_helper_truthiness ⟨[], [], [], [], [], false⟩ "k"
      (.vs "x")).2.2.1 (by decide)⟩⟩

/-- C7: the entity choices of the domain/entity filters step contain every
entity present in the persisted include- or exclude-entities options, even
when it is absent from the remote connection's entity set, and the domain
choices contain its domain prefix. -/
theorem choices_include_stale_entities (st : FlowState) (e : String)
    (h : e ∈ getStrList st.entryOptions CONF_INCLUDE_ENTITIES ∨
         e ∈ getStrList st.entryOptions CONF_EXCLUDE_ENTITIES) :
    e ∈ (_domains_and_entities st).2 ∧
      splitDotHead e ∈ (_domains_and_entities st).1 := by
  have he : e ∈ (_domains_and_entities st).2 := by
    simp only [_domains_and_entities]
    rw [mem_pySorted, mem_listToSet]
    rcases h with h | h
    · exact List.mem_append_left _
        (List.mem_append_right _ ((mem_listToSet _ _).mpr h))
    · exact List.mem_append_right _ ((mem_listToSet _ _).mpr h)
  refine ⟨he, ?_⟩
  simp only [_domains_and_entities] at he ⊢
  rw [mem_pySorted, mem_listToSet]
  exact List.mem_map_of_mem splitDotHead he

/-- Witness for C7 at a concrete input: an entity only present in the
persisted include options appears among the entity choices and its domain
among the domain choices. -/
theorem choices_include_stale_entities_witness :
    ("light.old" ∈ getStrList [(CONF_INCLUDE_ENTITIES, Value.vls ["light.old"])]
        CONF_INCLUDE_ENTITIES ∧
      "light.old" ∈ (_domains_and_entities
        ⟨[(CONF_INCLUDE_ENTITIES, .vls ["light.old"])], ["sensor.a"], [], [], [],
          false⟩).2 ∧
      splitDotHead "light.old" ∈ (_domains_and_entities
        ⟨[(CONF_INCLUDE_ENTITIES, .vls ["light.old"])], ["sensor.a"], [], [], [],
          false⟩).1) :=
  ⟨by decide,
   choices_include_stale_entities
     ⟨[(CONF_INCLUDE_ENTITIES, .vls ["light.old"])], ["sensor.a"], [], [], [], false⟩
     "light.old" (Or.inl (by decide))⟩

/-- The events-step states arising within one wizard run: the state produced
by first entering the step (which initialises the event set from the
persisted options), and any state obtained from a reachable one by an
add-event submission. -/
inductive EventsReachable : FlowState → Prop where
  | entered (st : FlowState) : EventsReachable (async_step_events st none).2
  | added (st : FlowState) (u : EventsInput) (ev : String) :
      EventsReachable st → u.addNewEvent = some ev →
      EventsReachable (async_step_events st (some u)).2

theorem events_reachable_nodup (st : FlowState) (h : EventsReachable st) :
    st.events.Nodup := by
  induction h with
  | entered st0 =>
    simp only [async_step_events]
    exact listToSet_nodup _
  | added st0 u ev hr hu ih =>
    obtain ⟨se, an⟩ := u
    simp only at hu
    subst hu
    simp only [async_step_events]
    exact setAdd_nodup _ _ ih

/-- C5: the subscribed-event collection is deduplicated — in any events-step
state of a wizard run (in particular after submitting the add-new-event
sentinel twice with the same name), every event name occurs at most once in
the choice set, so the list stored into the options draft by a finalize
submission (a multi-select over that set, each displayed choice selectable at
most once) contains each name at most once. -/
theorem events_final_list_dedup (st : FlowState) (u : EventsInput)
    (hr : EventsReachable st) (hfin : u.addNewEvent = none)
    (hsel : ∀ x ∈ u.subscribeEvents.getD [],
      List.count x (u.subscribeEvents.getD []) ≤ List.count x st.events) :
    ∀ name l,
      (async_step_events st (some u)).2.options.get? CONF_SUBSCRIBE_EVENTS =
        some (.vls l) →
      List.count name l ≤ 1 := by
  intro name l hopt
  obtain ⟨se, an⟩ := u
  simp only at hfin
  subst hfin
  simp only [async_step_events] at hopt hsel
  rw [Dict.get?_set_self] at hopt
  simp only [Option.some.injEq, Value.vls.injEq] at hopt
  subst hopt
  have hnd := events_reachable_nodup st hr
  by_cases hm : name ∈ se.getD []
  · exact le_trans (hsel name hm) (List.nodup_iff_count_le_one.mp hnd name)
  · rw [List.count_eq_zero.mpr hm]
    omega

/-- The concrete events-step run of the C5 witness: enter the step with no
persisted events, add the name ev twice, then finalize selecting it. -/
def c5_st0 : FlowState := ⟨[], [], [], [], [], false⟩

/-- State after first entering the events step of the C5 witness run. -/
def c5_st1 : FlowState := (async_step_events c5_st0 none).2

/-- State after adding ev once in the C5 witness run. -/
def c5_st2 : FlowState :=
  (async_step_events c5_st1 (some ⟨some [], some "ev"⟩)).2

/-- State after adding ev a second time in the C5 witness run. -/
def c5_st3 : FlowState :=
  (async_step_events c5_st2 (some ⟨some ["ev"], some "ev"⟩)).2

/-- Witness for C5: after adding the same name twice, the finalize submission
stores a list in which the name occurs once. -/
theorem events_final_list_dedup_witness :
    ((⟨some ["ev"], none⟩ : EventsInput).addNewEvent = none ∧
      (∀ x ∈ (["ev"] : List String),
        List.count x ["ev"] ≤ List.count x c5_st3.events) ∧
      (async_step_events c5_st3 (some ⟨some ["ev"], none⟩)).2.options.get?
        CONF_SUBSCRIBE_EVENTS = some (.vls ["ev"]) ∧
      List.count "ev" ["ev"] ≤ 1) := by
  refine ⟨rfl, by decide, by decide, ?_⟩
  exact events_final_list_dedup c5_st3 ⟨some ["ev"], none⟩
    (.added c5_st2 ⟨some ["ev"], some "ev"⟩ "ev"
      (.added c5_st1 ⟨some [], some "ev"⟩ "ev" (.entered c5_st0) rfl) rfl)
    rfl (by decide) "ev" ["ev"] (by decide)

/-- The persisted filter record of the C6 failing input. -/
def c6_A : Filter := ⟨some "sensor.a", none, none, none⟩

/-- The C6 failing input: an entry whose persisted options hold the filter
list `[c6_A]`. -/
def c6_st0 : FlowState := ⟨[(CONF_FILTER, .vlf [c6_A])], [], [], [], [], false⟩

/-- State after the initial render of the general-filters step on the C6
failing input (in Python, `self.filters` now aliases the persisted list). -/
def c6_st1 : FlowState :=
  ((async_step_general_filters c6_st0 none).map Prod.snd).getD c6_st0

/-- The add-one-filter submission of the C6 failing input. -/
def c6_add : GFInput := ⟨some [], some "sensor.b", none, none, none⟩

/-- State after the add-one-filter submission on the C6 failing input. -/
def c6_st2 : FlowState :=
  ((async_step_general_filters c6_st1 (some c6_add)).map Prod.snd).getD c6_st0

/-- C6 fails on the code: on an entry with a previously persisted filter
list, the first render of the general-filters step makes `self.filters` the
very list object stored in `config_entry.options`, so the add-one-filter
submission's `self.filters.append(new_filter)` mutates the persisted options
mapping before any finalize — the persisted filter list is no longer what it
was, with no entry creation having taken place. -/
theorem persisted_options_mutated_by_alias :
    Dict.get? c6_st0.entryOptions CONF_FILTER = some (.vlf [c6_A]) ∧
    Dict.get? c6_st2.entryOptions CONF_FILTER =
      some (.vlf [c6_A, newFilterOf c6_add]) ∧
    (Value.vlf [c6_A, newFilterOf c6_add] ≠ .vlf [c6_A]) := by
  decide

end RemoteHA
